import Mathlib

/-!
# Verification of the `duplicates` scan-and-hash pipeline

Shallow embedding of `duplicates.go` (carfloresf/duplicates): a command-line
tool that walks a directory tree, filters files by size and name pattern,
hashes the survivors with MD5 on a worker pool, and groups equal hashes in a
shared map.

The embedding models:
* the MD5 fingerprint (`md5Hex`), as computed by `crypto/md5` plus the
  `%x` formatting in `scanAndHashFile`;
* the inclusion filters of `visitFile` (line 202) and `scanAndHashFile`
  (line 46), including the `"*"` short-circuit and the nil-regex dereference;
* `visitFile` as the `filepath.Walk` callback, including its ignored `err`
  parameter and the nil `FileInfo` dereference on walk errors;
* `scanAndHashFile`'s effect on the shared state (`fileCount`, the
  `duplicates.m` map, the error log);
* the worker body (`worker`, lines 108-145) for a single dequeued item;
* the pool of `computeHashes` (lines 147-198) as a labelled transition
  system: job channel, worker states, result messages, and the collector
  loop that consumes `len(walkFiles)` result messages.

File contents are byte lists (`List Nat`, each byte < 256); sizes are `Int`
(Go `int64`).  The Go `regexp` package is external to the repository, so the
compiled matcher is `Option (String → Bool)`: `none` models the nil
`*regexp.Regexp` returned by a failed `regexp.Compile`.  A `none` result of
an embedded operation models a Go nil-pointer panic.
-/

namespace Duplicates

/-! ## MD5 (Go `crypto/md5` + `fmt.Sprintf("%x", ...)`) -/

/-- Left-rotate a 32-bit word. -/
def rotl (x s : Nat) : Nat :=
  ((x <<< s) % 4294967296) ||| (x >>> (32 - s))

/-- The 64 MD5 sine-table constants. -/
def md5K : List Nat :=
  [0xd76aa478, 0xe8c7b756, 0x242070db, 0xc1bdceee,
   0xf57c0faf, 0x4787c62a, 0xa8304613, 0xfd469501,
   0x698098d8, 0x8b44f7af, 0xffff5bb1, 0x895cd7be,
   0x6b901122, 0xfd987193, 0xa679438e, 0x49b40821,
   0xf61e2562, 0xc040b340, 0x265e5a51, 0xe9b6c7aa,
   0xd62f105d, 0x02441453, 0xd8a1e681, 0xe7d3fbc8,
   0x21e1cde6, 0xc33707d6, 0xf4d50d87, 0x455a14ed,
   0xa9e3e905, 0xfcefa3f8, 0x676f02d9, 0x8d2a4c8a,
   0xfffa3942, 0x8771f681, 0x6d9d6122, 0xfde5380c,
   0xa4beea44, 0x4bdecfa9, 0xf6bb4b60, 0xbebfbc70,
   0x289b7ec6, 0xeaa127fa, 0xd4ef3085, 0x04881d05,
   0xd9d4d039, 0xe6db99e5, 0x1fa27cf8, 0xc4ac5665,
   0xf4292244, 0x432aff97, 0xab9423a7, 0xfc93a039,
   0x655b59c3, 0x8f0ccc92, 0xffeff47d, 0x85845dd1,
   0x6fa87e4f, 0xfe2ce6e0, 0xa3014314, 0x4e0811a1,
   0xf7537e82, 0xbd3af235, 0x2ad7d2bb, 0xeb86d391]

/-- The 64 MD5 per-round shift amounts. -/
def md5S : List Nat :=
  [7, 12, 17, 22, 7, 12, 17, 22, 7, 12, 17, 22, 7, 12, 17, 22,
   5, 9, 14, 20, 5, 9, 14, 20, 5, 9, 14, 20, 5, 9, 14, 20,
   4, 11, 16, 23, 4, 11, 16, 23, 4, 11, 16, 23, 4, 11, 16, 23,
   6, 10, 15, 21, 6, 10, 15, 21, 6, 10, 15, 21, 6, 10, 15, 21]

/-- MD5 auxiliary function F. -/
def md5F (b c d : Nat) : Nat := (b &&& c) ||| ((b ^^^ 0xffffffff) &&& d)

/-- MD5 auxiliary function G. -/
def md5G (b c d : Nat) : Nat := (b &&& d) ||| (c &&& (d ^^^ 0xffffffff))

/-- MD5 auxiliary function H. -/
def md5H (b c d : Nat) : Nat := b ^^^ c ^^^ d

/-- MD5 auxiliary function I. -/
def md5I (b c d : Nat) : Nat := c ^^^ (b ||| (d ^^^ 0xffffffff))

/-- Little-endian 32-bit word `j` of a 64-byte block. -/
def wordAt (block : List Nat) (j : Nat) : Nat :=
  block.getD (4 * j) 0 + 256 * block.getD (4 * j + 1) 0 +
    65536 * block.getD (4 * j + 2) 0 + 16777216 * block.getD (4 * j + 3) 0

/-- One of the 64 MD5 operations on the running state `(a, b, c, d)`. -/
def md5Op (M : Nat → Nat) (st : Nat × Nat × Nat × Nat) (i : Nat) :
    Nat × Nat × Nat × Nat :=
  let (a, b, c, d) := st
  let f :=
    if i < 16 then md5F b c d
    else if i < 32 then md5G b c d
    else if i < 48 then md5H b c d
    else md5I b c d
  let g :=
    if i < 16 then i
    else if i < 32 then (5 * i + 1) % 16
    else if i < 48 then (3 * i + 5) % 16
    else (7 * i) % 16
  let tmp := (a + f + md5K.getD i 0 + M g) % 4294967296
  (d, (b + rotl tmp (md5S.getD i 0)) % 4294967296, b, c)

/-- Digest one 64-byte block into the chaining state. -/
def md5Block (st : Nat × Nat × Nat × Nat) (block : List Nat) :
    Nat × Nat × Nat × Nat :=
  let (a0, b0, c0, d0) := st
  let (a, b, c, d) := (List.range 64).foldl (md5Op (wordAt block)) st
  ((a + a0) % 4294967296, (b + b0) % 4294967296,
   (c + c0) % 4294967296, (d + d0) % 4294967296)

/-- Split a byte list into 64-byte chunks. -/
def chunks64 (l : List Nat) : List (List Nat) :=
  if h : l = [] then []
  else l.take 64 :: chunks64 (l.drop 64)
termination_by l.length
decreasing_by
  simp only [List.length_drop]
  have := List.length_pos.mpr h
  omega

/-- The 8-byte little-endian encoding of the bit length of an `L`-byte
message (a Go `uint64`). -/
def lenBytes (L : Nat) : List Nat :=
  (List.range 8).map (fun j => ((8 * L) % 18446744073709551616) / (256 ^ j) % 256)

/-- Little-endian bytes of a 32-bit word. -/
def toLE4 (x : Nat) : List Nat :=
  [x % 256, x / 256 % 256, x / 65536 % 256, x / 16777216 % 256]

/-- MD5 padding: `0x80`, zeros to 56 mod 64, then the bit length. -/
def md5Pad (msg : List Nat) : List Nat :=
  msg ++ [0x80] ++ List.replicate ((119 - msg.length % 64) % 64) 0
      ++ lenBytes msg.length

/-- The 16-byte MD5 digest of a byte list. -/
def md5Bytes (msg : List Nat) : List Nat :=
  let (a, b, c, d) :=
    (chunks64 (md5Pad msg)).foldl md5Block
      (0x67452301, 0xefcdab89, 0x98badcfe, 0x10325476)
  toLE4 a ++ toLE4 b ++ toLE4 c ++ toLE4 d

/-- Lowercase hex digit. -/
def hexChar (n : Nat) : Char :=
  if n < 10 then Char.ofNat (48 + n) else Char.ofNat (87 + n)

/-- Two lowercase hex digits of a byte. -/
def byteHex (b : Nat) : List Char := [hexChar (b / 16), hexChar (b % 16)]

/-- The fingerprint of the source: MD5 digest rendered as a lowercase hex
string, as produced by `fmt.Sprintf("%x", md5Hash.Sum(nil))`. -/
def md5Hex (msg : List Nat) : String :=
  String.mk ((md5Bytes msg).map byteHex).flatten

/-! ## Data model -/

/-- The part of Go's `os.FileInfo` the program reads: `IsDir()`, `Size()`,
`Name()`. -/
structure FileInfo where
  isDir : Bool
  size : Int
  name : String
deriving DecidableEq

/-- The `WalkedFile` struct of `duplicates.go`: path plus `os.FileInfo`. -/
structure WalkedFile where
  path : String
  file : FileInfo
deriving DecidableEq

/-- The configuration globals read by the filters: `minSize`,
`filenameMatch`, and `filenameRegex`.  The matcher is `none` when
`regexp.Compile` failed and left `filenameRegex` nil. -/
structure Config where
  minSize : Int
  filenameMatch : String
  matchString : Option (String → Bool)

/-- What opening and reading a path yields: `openFail` models an `os.Open`
error, `readFail` an `io.Copy` error, `ok` a successful read of the byte
content. -/
inductive FileAccess where
  | openFail
  | readFail
  | ok (bytes : List Nat)
deriving DecidableEq

/-- The two error log records of `scanAndHashFile`: "Failed to open file"
and "Failed to calculate hash". -/
inductive LogEvent where
  | openError (path : String)
  | hashError (path : String)
deriving DecidableEq

/-- The `duplicates.m` map, `map[string][]string`, as an association list
from fingerprint to the paths appended under it. -/
def DupIndex := List (String × List String)
deriving DecidableEq

/-- The update `duplicates.m[hash] = append(duplicates.m[hash], path)`: append `p`
under key `h`, inserting the key if absent. -/
def indexAdd (idx : DupIndex) (h p : String) : DupIndex :=
  match idx with
  | [] => [(h, [p])]
  | (k, l) :: rest =>
      if k = h then (k, l ++ [p]) :: rest else (k, l) :: indexAdd rest h p

/-- Map lookup with Go's zero-value default: `duplicates.m[k]` is `nil`
when `k` is absent. -/
def indexGet (idx : DupIndex) (k : String) : List String :=
  match idx with
  | [] => []
  | (k', l) :: rest => if k' = k then l else indexGet rest k

/-- Total number of paths stored in the index. -/
def indexSize (idx : DupIndex) : Nat :=
  (idx.map (fun e => e.2.length)).sum

/-- The shared mutable state touched by `scanAndHashFile`: the `fileCount`
counter, the `duplicates` map, and the structured error log. -/
structure HashState where
  fileCount : Nat
  index : DupIndex
  logs : List LogEvent
deriving DecidableEq

/-- The empty state at run start. -/
def initHash : HashState := { fileCount := 0, index := [], logs := [] }

/-! ## Filters

`scanAndHashFile` line 46:
`f.IsDir() || f.Size() <= minSize || (filenameMatch != "*" && !filenameRegex.MatchString(f.Name()))`.

`visitFile` line 202:
`!f.IsDir() && f.Size() > minSize && (filenameMatch == "*" || filenameRegex.MatchString(f.Name()))`.

A `none` result models the nil-pointer panic of calling `MatchString` on a
nil `*regexp.Regexp`; thanks to short-circuit evaluation the matcher is only
reached for a non-directory entry strictly larger than `minSize` whose
pattern is not the literal `"*"`. -/

/-- The early-return condition of `scanAndHashFile`. -/
def shouldSkip (c : Config) (f : FileInfo) : Option Bool :=
  if f.isDir then some true
  else if f.size ≤ c.minSize then some true
  else if c.filenameMatch = "*" then some false
  else
    match c.matchString with
    | none => none
    | some m => some (!m f.name)

/-- The acceptance condition of `visitFile`. -/
def visitAccepts (c : Config) (f : FileInfo) : Option Bool :=
  if f.isDir then some false
  else if ¬ c.minSize < f.size then some false
  else if c.filenameMatch = "*" then some true
  else
    match c.matchString with
    | none => none
    | some m => some (m f.name)

/-! ## File discovery (`visitFile`, the `filepath.Walk` callback) -/

/-- The walk-visible globals: `visitCount` and `walkFiles`. -/
structure WalkState where
  visitCount : Nat
  walkFiles : List WalkedFile
deriving DecidableEq

/-- The empty walk state. -/
def initWalk : WalkState := { visitCount := 0, walkFiles := [] }

/-- One callback invocation from `filepath.Walk`: path, the `os.FileInfo`
(nil when `lstat` failed), and the walk error for this entry. -/
structure WalkEntry where
  path : String
  info : Option FileInfo
  err : Option String

/-- The callback `visitFile(path, f, err)`.  The `err` argument is ignored by the source;
when `f` is the nil interface (walk passed an `lstat` error) the call to
`f.IsDir()` dereferences nil and panics, modelled as `none` (the
`visitCount++` preceding the panic dies with the process). -/
def visitFile (c : Config) (s : WalkState) (path : String) (f : Option FileInfo)
    (err : Option String) : Option WalkState :=
  match f with
  | none => none
  | some fi =>
    match visitAccepts c fi with
    | none => none
    | some true =>
        some { s with visitCount := s.visitCount + 1,
                      walkFiles := s.walkFiles ++ [⟨path, fi⟩] }
    | some false => some { s with visitCount := s.visitCount + 1 }

/-- The walk `filepath.Walk(root, visitFile)`: fold the callback over the walked
entries; any panic aborts the whole process. -/
def walkAll (c : Config) (entries : List WalkEntry) (s0 : WalkState) :
    Option WalkState :=
  match entries with
  | [] => some s0
  | e :: rest =>
    match visitFile c s0 e.path e.info e.err with
    | none => none
    | some s' => walkAll c rest s'

/-! ## Hashing one file (`scanAndHashFile`) -/

/-- The body of `scanAndHashFile(path, f, progress)`: early return on the filter;
otherwise `fileCount++`, open, stream through MD5, and append
`(hash, path)` to the shared map.  Open and read failures are logged and the
function returns; the progress argument only drives the display and carries
no authoritative state. -/
def scanAndHashFile (c : Config) (fs : String → FileAccess) (path : String)
    (f : FileInfo) (s : HashState) : Option HashState :=
  match shouldSkip c f with
  | none => none
  | some true => some s
  | some false =>
    let s := { s with fileCount := s.fileCount + 1 }
    match fs path with
    | .openFail => some { s with logs := s.logs ++ [.openError path] }
    | .readFail => some { s with logs := s.logs ++ [.hashError path] }
    | .ok bytes =>
        some { s with index := indexAdd s.index (md5Hex bytes) path }

/-- The per-item effect of a worker, shorn of its thread-local statistics. -/
def processItem (c : Config) (fs : String → FileAccess) (w : WalkedFile)
    (s : HashState) : Option HashState :=
  scanAndHashFile c fs w.path w.file s

/-- Sequential processing of a list of dispatched files, as a single worker
draining the queue in order performs it. -/
def foldScan (c : Config) (fs : String → FileAccess) :
    List WalkedFile → HashState → Option HashState
  | [], s => some s
  | w :: l, s =>
    match processItem c fs w s with
    | none => none
    | some s' => foldScan c fs l s'

/-! ## Worker body (`worker`, one loop iteration on a dequeued job) -/

/-- The `workerStats` thread-locals. -/
structure WorkerStats where
  processedFiles : Nat
  totalBytes : Int
  errors : Nat
deriving DecidableEq

/-- Zeroed worker statistics. -/
def initStats : WorkerStats := { processedFiles := 0, totalBytes := 0, errors := 0 }

/-- One `case file, ok := <-jobs` iteration of `worker` on a received job.
A `none`/nil job increments `stats.errors` and sends an error on `results`;
otherwise the worker runs `scanAndHashFile`, updates `processedFiles` and
`totalBytes`, and sends `nil` on `results`.  The returned message is the
value sent on the `results` channel (`none` = Go `nil`). -/
def workerHandle (c : Config) (fs : String → FileAccess) (job : Option WalkedFile)
    (g : HashState) (st : WorkerStats) :
    Option (HashState × WorkerStats × Option String) :=
  match job with
  | none => some (g, { st with errors := st.errors + 1 }, some "received invalid file data")
  | some w =>
    match scanAndHashFile c fs w.path w.file g with
    | none => none
    | some g' =>
        some (g',
          { st with processedFiles := st.processedFiles + 1,
                    totalBytes := st.totalBytes + w.file.size },
          none)

/-! ## Startup (`main`, lines 240-241) -/

/-- The startup line `r, _ := regexp.Compile(filenameMatch); filenameRegex = r`: the compile
function returns the matcher (nil on failure) and the error; the source
discards the error and stores the possibly-nil matcher. -/
def setupMatcher (compile : String → Option (String → Bool) × Option String)
    (pat : String) : Option (String → Bool) :=
  (compile pat).1

/-! ## The worker pool of `computeHashes` as a transition system

`computeHashes` starts `numWorkers` goroutines over a `jobs` channel
(buffer `visitCount`, large enough that the feeding goroutine never blocks:
it sends every element of `walkFiles` and closes the channel), plus a
collector loop that receives exactly `len(walkFiles)` messages from the
`results` channel.

Worker behaviour per iteration:
* receive a job: process it, then send `nil` on `results`;
* see the closed, empty channel: send `nil` on `results` and return.

In executions where every job is a well-formed `*WalkedFile` no error is
ever sent on `results`, so `cancel()` is never called and the
`ctx.Done()` branches are unreachable; the model therefore elides the
context.  Worker identity is irrelevant, so workers are represented by the
count of idle ones, the bag of items being processed, and the count of
exited ones.  `processed` is a ghost trace of completed items in completion
order; `results` counts the pending (all-`nil`) messages in the results
channel. -/

/-- A configuration of the `computeHashes` pool. -/
structure PoolState where
  jobs : List WalkedFile
  idleW : Nat
  busyW : List WalkedFile
  doneW : Nat
  results : Nat
  collected : Nat
  g : HashState
  processed : List WalkedFile
deriving DecidableEq

/-- The pool at the start of `computeHashes`: all of `walkFiles` queued
(the feeder never blocks on the buffered channel), `numW` idle workers,
nothing collected. -/
def initPool (wfs : List WalkedFile) (numW : Nat) (g0 : HashState) : PoolState :=
  { jobs := wfs, idleW := numW, busyW := [], doneW := 0,
    results := 0, collected := 0, g := g0, processed := [] }

/-- One scheduler step of the pool.  `numFiles` is `len(walkFiles)`, the
number of results the collector loop consumes. -/
inductive PoolStep (c : Config) (fs : String → FileAccess) (numFiles : Nat) :
    PoolState → PoolState → Prop where
  /-- An idle worker receives the next job from the channel. -/
  | dequeue (s : PoolState) (j : WalkedFile) (rest : List WalkedFile)
      (hj : s.jobs = j :: rest) (hw : 0 < s.idleW) :
      PoolStep c fs numFiles s
        { s with jobs := rest, idleW := s.idleW - 1, busyW := j :: s.busyW }
  /-- A busy worker finishes `scanAndHashFile`, updates the shared state
  under the mutex, sends `nil` on `results`, and returns to the loop. -/
  | finish (s : PoolState) (j : WalkedFile) (pre post : List WalkedFile)
      (g' : HashState) (hb : s.busyW = pre ++ j :: post)
      (hp : processItem c fs j s.g = some g') :
      PoolStep c fs numFiles s
        { s with busyW := pre ++ post, idleW := s.idleW + 1, g := g',
                 results := s.results + 1, processed := s.processed ++ [j] }
  /-- An idle worker sees the closed, drained jobs channel, sends its exit
  `nil` on `results`, and returns. -/
  | exitw (s : PoolState) (hj : s.jobs = []) (hw : 0 < s.idleW) :
      PoolStep c fs numFiles s
        { s with idleW := s.idleW - 1, doneW := s.doneW + 1,
                 results := s.results + 1 }
  /-- The collector loop, still short of `numFiles` messages, receives one
  from `results`. -/
  | collect (s : PoolState) (hr : 0 < s.results) (hc : s.collected < numFiles) :
      PoolStep c fs numFiles s
        { s with results := s.results - 1, collected := s.collected + 1 }

/-- Reachability of pool configurations. -/
def PoolReach (c : Config) (fs : String → FileAccess) (numFiles : Nat) :
    PoolState → PoolState → Prop :=
  Relation.ReflTransGen (PoolStep c fs numFiles)

/-! ## Basic lemmas about the index and the scan fold -/

lemma indexGet_indexAdd (idx : DupIndex) (h p k : String) :
    indexGet (indexAdd idx h p) k =
      if h = k then indexGet idx k ++ [p] else indexGet idx k := by
  induction idx with
  | nil =>
      by_cases hk : h = k <;> simp [indexAdd, indexGet, hk]
  | cons e rest ih =>
      obtain ⟨k', l⟩ := e
      by_cases hkh : k' = h
      · subst hkh
        by_cases hk : k' = k <;> simp [indexAdd, indexGet, hk]
      · by_cases hk : k' = k
        · subst hk
          have : ¬ h = k' := fun hh => hkh hh.symm
          simp [indexAdd, indexGet, hkh, this]
        · simp [indexAdd, indexGet, hkh, hk, ih]

lemma indexSize_indexAdd (idx : DupIndex) (h p : String) :
    indexSize (indexAdd idx h p) = indexSize idx + 1 := by
  induction idx with
  | nil => simp [indexAdd, indexSize]
  | cons e rest ih =>
      obtain ⟨k', l⟩ := e
      simp only [indexSize] at ih ⊢
      by_cases hkh : k' = h
      · simp only [indexAdd, if_pos hkh, List.map_cons, List.sum_cons,
          List.length_append, List.length_singleton]
        omega
      · simp only [indexAdd, if_neg hkh, List.map_cons, List.sum_cons, ih]
        omega

/-- Whether a dispatched file contributes a path under key `k`: it passes
the `scanAndHashFile` filter, its content reads successfully, and its MD5
hex equals `k`. -/
def contributes (c : Config) (fs : String → FileAccess) (k : String)
    (w : WalkedFile) : Bool :=
  decide (shouldSkip c w.file = some false) &&
    (match fs w.path with
     | .ok b => decide (md5Hex b = k)
     | _ => false)

lemma foldScan_indexGet (c : Config) (fs : String → FileAccess)
    (l : List WalkedFile) (s0 s : HashState)
    (h : foldScan c fs l s0 = some s) (k : String) :
    indexGet s.index k =
      indexGet s0.index k ++ (l.filter (contributes c fs k)).map (fun w => w.path) := by
  induction l generalizing s0 with
  | nil =>
      simp [foldScan] at h
      subst h
      simp
  | cons w rest ih =>
      rw [foldScan] at h
      cases hsk : shouldSkip c w.file with
      | none => simp [processItem, scanAndHashFile, hsk] at h
      | some b =>
        cases b with
        | true =>
            have h' : foldScan c fs rest s0 = some s := by
              simpa [processItem, scanAndHashFile, hsk] using h
            have hc : contributes c fs k w = false := by
              simp [contributes, hsk]
            simp [List.filter, hc, ih _ h']
        | false =>
          cases hfs : fs w.path with
          | openFail =>
              have h' : foldScan c fs rest
                  { s0 with fileCount := s0.fileCount + 1,
                            logs := s0.logs ++ [.openError w.path] } = some s := by
                simpa [processItem, scanAndHashFile, hsk, hfs] using h
              have hc : contributes c fs k w = false := by
                simp [contributes, hsk, hfs]
              simp [List.filter, hc, ih _ h']
          | readFail =>
              have h' : foldScan c fs rest
                  { s0 with fileCount := s0.fileCount + 1,
                            logs := s0.logs ++ [.hashError w.path] } = some s := by
                simpa [processItem, scanAndHashFile, hsk, hfs] using h
              have hc : contributes c fs k w = false := by
                simp [contributes, hsk, hfs]
              simp [List.filter, hc, ih _ h']
          | ok bytes =>
              have h' : foldScan c fs rest
                  { s0 with fileCount := s0.fileCount + 1,
                            index := indexAdd s0.index (md5Hex bytes) w.path } = some s := by
                simpa [processItem, scanAndHashFile, hsk, hfs] using h
              rw [ih _ h']
              by_cases hk : md5Hex bytes = k
              · have hc : contributes c fs k w = true := by
                  simp [contributes, hsk, hfs, hk]
                simp [List.filter, hc, indexGet_indexAdd, hk]
              · have hc : contributes c fs k w = false := by
                  simp [contributes, hsk, hfs, hk]
                simp [List.filter, hc, indexGet_indexAdd, hk]

lemma foldScan_counts (c : Config) (fs : String → FileAccess)
    (l : List WalkedFile) (s0 s : HashState)
    (hall : ∀ w ∈ l, shouldSkip c w.file = some false)
    (h : foldScan c fs l s0 = some s) :
    indexSize s.index + s.logs.length =
      indexSize s0.index + s0.logs.length + l.length ∧
    s.fileCount = s0.fileCount + l.length := by
  induction l generalizing s0 with
  | nil =>
      simp [foldScan] at h
      subst h
      simp
  | cons w rest ih =>
      rw [foldScan] at h
      have hsk : shouldSkip c w.file = some false := hall w (by simp)
      have hall' : ∀ x ∈ rest, shouldSkip c x.file = some false :=
        fun x hx => hall x (by simp [hx])
      cases hfs : fs w.path with
      | openFail =>
          have h' := h
          rw [processItem, scanAndHashFile, hsk, hfs] at h'
          have := ih _ hall' h'
          simp only [List.length_append, List.length_cons, List.length_nil] at this ⊢
          omega
      | readFail =>
          have h' := h
          rw [processItem, scanAndHashFile, hsk, hfs] at h'
          have := ih _ hall' h'
          simp only [List.length_append, List.length_cons, List.length_nil] at this ⊢
          omega
      | ok bytes =>
          have h' := h
          rw [processItem, scanAndHashFile, hsk, hfs] at h'
          have := ih _ hall' h'
          rw [indexSize_indexAdd] at this
          simp only [List.length_cons] at this ⊢
          omega

lemma foldScan_append_one (c : Config) (fs : String → FileAccess)
    (l : List WalkedFile) (w : WalkedFile) (s0 s1 : HashState)
    (h : foldScan c fs l s0 = some s1) :
    foldScan c fs (l ++ [w]) s0 = processItem c fs w s1 := by
  induction l generalizing s0 with
  | nil =>
      simp [foldScan] at h
      subst h
      cases hp : processItem c fs w s0 <;> simp [foldScan, hp]
  | cons x rest ih =>
      rw [foldScan] at h
      cases hp : processItem c fs x s0 with
      | none => rw [hp] at h; exact absurd h (by simp)
      | some s' =>
          rw [hp] at h
          rw [List.cons_append, foldScan, hp]
          exact ih _ h

/-- If the `visitFile` filter admits a file, the `scanAndHashFile` filter
does not skip it (the two lines test the same condition). -/
lemma visitAccepts_shouldSkip (c : Config) (f : FileInfo)
    (h : visitAccepts c f = some true) : shouldSkip c f = some false := by
  by_cases hd : f.isDir
  · simp [visitAccepts, hd] at h
  · by_cases hs : f.size ≤ c.minSize
    · have hlt : ¬ c.minSize < f.size := not_lt.mpr hs
      simp [visitAccepts, hd, hlt] at h
    · have hlt : c.minSize < f.size := not_le.mp hs
      by_cases hm : c.filenameMatch = "*"
      · simp [shouldSkip, hd, hs, hm]
      · cases hms : c.matchString with
        | none => simp [visitAccepts, hd, hlt, hm, hms] at h
        | some m =>
            have hname : m f.name = true := by
              simpa [visitAccepts, hd, hlt, hm, hms] using h
            simp [shouldSkip, hd, hs, hm, hms, hname]

/-! ## Characterization of the walk -/

/-- The files a complete walk appends to `walkFiles`: entries with valid
file info passing the `visitFile` filter, in walk order. -/
def walkedOf (c : Config) (entries : List WalkEntry) : List WalkedFile :=
  entries.filterMap (fun e =>
    match e.info with
    | some fi => if visitAccepts c fi = some true then some ⟨e.path, fi⟩ else none
    | none => none)

lemma visitFile_none (c : Config) (s : WalkState) (path : String)
    (err : Option String) : visitFile c s path none err = none := rfl

lemma visitFile_some (c : Config) (s : WalkState) (path : String)
    (fi : FileInfo) (err : Option String) :
    visitFile c s path (some fi) err =
      match visitAccepts c fi with
      | none => none
      | some true =>
          some { s with visitCount := s.visitCount + 1,
                        walkFiles := s.walkFiles ++ [⟨path, fi⟩] }
      | some false => some { s with visitCount := s.visitCount + 1 } := rfl

lemma walkAll_char (c : Config) (entries : List WalkEntry) (s0 s : WalkState)
    (h : walkAll c entries s0 = some s) :
    s.visitCount = s0.visitCount + entries.length ∧
    s.walkFiles = s0.walkFiles ++ walkedOf c entries := by
  induction entries generalizing s0 with
  | nil =>
      simp [walkAll] at h
      subst h
      simp [walkedOf]
  | cons e rest ih =>
      rw [walkAll] at h
      cases hinfo : e.info with
      | none => rw [hinfo, visitFile_none] at h; simp at h
      | some fi =>
        rw [hinfo, visitFile_some] at h
        cases hacc : visitAccepts c fi with
        | none => rw [hacc] at h; simp at h
        | some b =>
          rw [hacc] at h
          cases b with
          | true =>
              have key := ih _ h
              rw [key.1, key.2]
              constructor
              · simp only [List.length_cons]; omega
              · simp [walkedOf, List.filterMap_cons, hinfo, hacc]
          | false =>
              have key := ih _ h
              rw [key.1, key.2]
              constructor
              · simp only [List.length_cons]; omega
              · simp [walkedOf, List.filterMap_cons, hinfo, hacc]

lemma walkedOf_accepts (c : Config) (entries : List WalkEntry) (w : WalkedFile)
    (h : w ∈ walkedOf c entries) : visitAccepts c w.file = some true := by
  rw [walkedOf, List.mem_filterMap] at h
  obtain ⟨e, _, he⟩ := h
  cases hinfo : e.info with
  | none => rw [hinfo] at he; simp at he
  | some fi =>
      rw [hinfo] at he
      by_cases hacc : visitAccepts c fi = some true
      · have hw : ({ path := e.path, file := fi } : WalkedFile) = w := by
          simpa [hacc] using he
        subst hw
        exact hacc
      · simp [hacc] at he

/-! ## Permutation helpers for the pool invariant -/

lemma perm_dequeue_shape (x y z : List WalkedFile) (j : WalkedFile) :
    (x ++ (j :: y) ++ z).Perm ((j :: x) ++ y ++ z) :=
  List.Perm.append_right z (List.perm_middle)

lemma perm_finish_shape (A pre post proc : List WalkedFile) (j : WalkedFile) :
    (A ++ (pre ++ post) ++ (proc ++ [j])).Perm (A ++ (pre ++ j :: post) ++ proc) := by
  have h1 : ((pre ++ post) ++ (proc ++ [j])).Perm (j :: ((pre ++ post) ++ proc)) := by
    rw [← List.append_assoc]
    exact List.perm_append_singleton j ((pre ++ post) ++ proc)
  have h2 : ((pre ++ j :: post) ++ proc).Perm (j :: ((pre ++ post) ++ proc)) :=
    List.Perm.append_right proc List.perm_middle
  rw [List.append_assoc A (pre ++ post) (proc ++ [j]),
      List.append_assoc A (pre ++ j :: post) proc]
  exact List.Perm.append_left A (h1.trans h2.symm)

/-! ## The pool invariant

At every reachable configuration, the queued, in-flight, and completed
items partition `walkFiles`, and the shared state is exactly the sequential
fold of `scanAndHashFile` over the completed items in completion order. -/

lemma pool_invariant (c : Config) (fs : String → FileAccess) (nF : Nat)
    (wfs : List WalkedFile) (nW : Nat) (g0 : HashState) (s : PoolState)
    (h : PoolReach c fs nF (initPool wfs nW g0) s) :
    (s.jobs ++ s.busyW ++ s.processed).Perm wfs ∧
    foldScan c fs s.processed g0 = some s.g := by
  induction h with
  | refl =>
      constructor
      · simp [initPool]
      · simp [initPool, foldScan]
  | tail _ hstep ih =>
      obtain ⟨ihp, ihf⟩ := ih
      cases hstep with
      | dequeue j rest hj hw =>
          refine ⟨?_, by simpa using ihf⟩
          simp only
          rw [hj] at ihp
          exact (perm_dequeue_shape rest _ _ j).trans ihp
      | finish j pre post g' hb hp =>
          constructor
          · simp only
            rw [hb] at ihp
            exact (perm_finish_shape _ pre post _ j).trans ihp
          · simp only
            rw [foldScan_append_one c fs _ j g0 _ ihf]
            exact hp
      | exitw hj hw =>
          exact ⟨by simpa using ihp, by simpa using ihf⟩
      | collect hr hc =>
          exact ⟨by simpa using ihp, by simpa using ihf⟩

end Duplicates

namespace Duplicates

/-! ## Small subperm helpers -/

lemma subperm_map (f : WalkedFile → String) (l₁ l₂ : List WalkedFile)
    (h : l₁.Subperm l₂) : (l₁.map f).Subperm (l₂.map f) := by
  obtain ⟨l, hperm, hsub⟩ := h
  exact ⟨l.map f, hperm.map f, hsub.map f⟩

lemma subperm_nodup (l₁ l₂ : List String) (h : l₁.Subperm l₂)
    (hnd : l₂.Nodup) : l₁.Nodup := by
  obtain ⟨l, hperm, hsub⟩ := h
  exact hperm.nodup (List.Nodup.sublist hsub hnd)

lemma contributes_key (c : Config) (fs : String → FileAccess) (k : String)
    (w : WalkedFile) (h : contributes c fs k w = true) :
    ∃ b, fs w.path = FileAccess.ok b ∧ md5Hex b = k := by
  rw [contributes, Bool.and_eq_true] at h
  obtain ⟨h1, h2⟩ := h
  cases hfs : fs w.path with
  | openFail => rw [hfs] at h2; simp at h2
  | readFail => rw [hfs] at h2; simp at h2
  | ok b =>
      rw [hfs] at h2
      exact ⟨b, rfl, by simpa using h2⟩

/-! ## Concrete fixtures for witnesses and counterexamples -/

/-- A regular 1-byte file named `a`. -/
def fiA : FileInfo := { isDir := false, size := 1, name := "a" }

/-- The walked descriptor of `a`. -/
def wA : WalkedFile := { path := "a", file := fiA }

/-- A regular 1-byte file named `b`. -/
def fiB : FileInfo := { isDir := false, size := 1, name := "b" }

/-- The walked descriptor of `b`. -/
def wB : WalkedFile := { path := "b", file := fiB }

/-- Default configuration: `-size 0`, pattern `"*"` (so the nil matcher left
by the failing `regexp.Compile("*")` is never consulted). -/
def cStar : Config := { minSize := 0, filenameMatch := "*", matchString := none }

/-- A filesystem where every path reads as the byte `h` (0x68). -/
def fsA : String → FileAccess := fun _ => .ok [104]

/-- Pool start: one dispatched file, two workers (`runtime.NumCPU() = 2`). -/
def poolInit2 : PoolState := initPool [wA] 2 initHash

/-- Worker 1 has dequeued `a` and is hashing it. -/
def poolMid1 : PoolState :=
  { jobs := [], idleW := 1, busyW := [wA], doneW := 0,
    results := 0, collected := 0, g := initHash, processed := [] }

/-- Worker 2 saw the closed empty channel and sent its exit `nil`. -/
def poolMid2 : PoolState := { poolMid1 with idleW := 0, doneW := 1, results := 1 }

/-- The collector consumed that exit `nil` as its single expected result
and the loop of `computeHashes` returned — while `a` is still in flight. -/
def poolBad : PoolState := { poolMid2 with results := 0, collected := 1 }

/-- The state after sequentially processing `[wA]`. -/
def gSeqA : HashState := (foldScan cStar fsA [wA] initHash).getD initHash

/-- The fingerprint of the 1-byte content. -/
def hashA : String := md5Hex [104]

lemma reach_poolBad : PoolReach cStar fsA 1 poolInit2 poolBad := by
  have h1 : PoolStep cStar fsA 1 poolInit2 poolMid1 :=
    PoolStep.dequeue poolInit2 wA [] rfl (by decide)
  have h2 : PoolStep cStar fsA 1 poolMid1 poolMid2 :=
    PoolStep.exitw poolMid1 rfl (by decide)
  have h3 : PoolStep cStar fsA 1 poolMid2 poolBad :=
    PoolStep.collect poolMid2 (by decide) (by decide)
  exact Relation.ReflTransGen.tail
    (Relation.ReflTransGen.tail
      (Relation.ReflTransGen.tail Relation.ReflTransGen.refl h1) h2) h3

/-! ## Claim C1 -/

/-- C1: the claim states that the result-collection loop of `computeHashes`
returns only after every dispatched `WalkedFile` has reported exactly once,
with nothing still in flight.  This theorem shows the code violates that:
with one dispatched file and two workers there is a reachable schedule in
which the collector has consumed its full quota of `len(walkFiles) = 1`
results (the idle worker's exit `nil`, sent on the closed channel) and
returned while the file is still being processed (`busyW = [wA]`) and has
never reported (`processed = []`). -/
theorem collector_returns_with_item_in_flight :
    PoolReach cStar fsA 1 poolInit2 poolBad ∧
    poolBad.collected = 1 ∧ poolBad.busyW = [wA] ∧ poolBad.processed = [] :=
  ⟨reach_poolBad, rfl, rfl, rfl⟩

/-! ## Claim C4 -/

/-- C4 counterexample: the claim states that a pool-size-1 run and a
pool-size-N run produce the same duplicate-index content up to ordering
within groups.  In the schedule of `reach_poolBad` (pool size 2), the
collector loop returns with the index still empty, while the sequential
baseline over the same `walkFiles` holds `a` under its fingerprint — so at
the point `computeHashes` returns and `main` reads `duplicates.m`, the two
runs' contents differ. -/
theorem concurrent_index_differs_from_sequential :
    PoolReach cStar fsA 1 poolInit2 poolBad ∧ poolBad.collected = 1 ∧
    foldScan cStar fsA [wA] initHash = some gSeqA ∧
    ¬ (indexGet poolBad.g.index hashA).Perm (indexGet gSeqA.index hashA) := by
  refine ⟨reach_poolBad, rfl, rfl, ?_⟩
  intro hperm
  have hbad : indexGet poolBad.g.index hashA = [] := rfl
  have hseq : indexGet gSeqA.index hashA = ["a"] := by
    show indexGet (indexAdd [] hashA "a") hashA = ["a"]
    rw [indexGet_indexAdd]
    simp [indexGet]
  rw [hbad, hseq] at hperm
  simpa using hperm.length_eq

/-- C4 (amended): in every execution in which the pool actually drains —
no job still queued and no worker still busy when the index snapshot is
taken — the index content equals the sequential (pool size 1) result up to
ordering within each fingerprint group, whatever the worker count and
schedule. -/
theorem drained_pool_index_equiv_sequential
    (c : Config) (fs : String → FileAccess) (nF : Nat)
    (wfs : List WalkedFile) (nW : Nat) (g0 gseq : HashState) (s : PoolState)
    (hreach : PoolReach c fs nF (initPool wfs nW g0) s)
    (hjobs : s.jobs = []) (hbusy : s.busyW = [])
    (hseq : foldScan c fs wfs g0 = some gseq) :
    ∀ k, (indexGet s.g.index k).Perm (indexGet gseq.index k) := by
  obtain ⟨hperm, hfold⟩ := pool_invariant c fs nF wfs nW g0 s hreach
  rw [hjobs, hbusy] at hperm
  simp only [List.nil_append] at hperm
  intro k
  rw [foldScan_indexGet c fs s.processed g0 s.g hfold k,
      foldScan_indexGet c fs wfs g0 gseq hseq k]
  exact List.Perm.append_left _ ((hperm.filter _).map _)

/-- Pool start for the drained witness run: one file, one worker. -/
def poolD0 : PoolState := initPool [wA] 1 initHash

/-- The single worker has dequeued `a`. -/
def poolD1 : PoolState :=
  { jobs := [], idleW := 0, busyW := [wA], doneW := 0,
    results := 0, collected := 0, g := initHash, processed := [] }

/-- The worker finished `a`: the pool is drained. -/
def poolD2 : PoolState :=
  { jobs := [], idleW := 1, busyW := [], doneW := 0,
    results := 1, collected := 0, g := gSeqA, processed := [wA] }

lemma reach_poolD2 : PoolReach cStar fsA 1 poolD0 poolD2 := by
  have h1 : PoolStep cStar fsA 1 poolD0 poolD1 :=
    PoolStep.dequeue poolD0 wA [] rfl (by decide)
  have h2 : PoolStep cStar fsA 1 poolD1 poolD2 :=
    PoolStep.finish poolD1 wA [] [] gSeqA rfl rfl
  exact Relation.ReflTransGen.tail
    (Relation.ReflTransGen.tail Relation.ReflTransGen.refl h1) h2

/-- Witness for the amended C4 theorem at a concrete drained execution. -/
theorem drained_pool_index_equiv_sequential_witness :
    (indexGet poolD2.g.index hashA).Perm (indexGet gSeqA.index hashA) :=
  drained_pool_index_equiv_sequential cStar fsA 1 [wA] 1 initHash gSeqA poolD2
    reach_poolD2 rfl rfl rfl hashA

end Duplicates

namespace Duplicates

/-! ## Claim C2 -/

/-- C2: for files processed in a run (dispatched, passing the filter, and
read successfully), identical byte content puts both paths in the same
fingerprint group of the final index, and paths never share a group unless
their contents' fingerprints collide (`md5Hex` is a pure function, so it is
deterministic on input bytes by construction). -/
theorem identical_content_lands_in_same_group
    (c : Config) (fs : String → FileAccess) (wfs : List WalkedFile)
    (g : HashState) (a b : WalkedFile) (ca cb : List Nat)
    (hrun : foldScan c fs wfs initHash = some g)
    (hnd : (wfs.map (fun w => w.path)).Nodup)
    (ha : a ∈ wfs) (hb : b ∈ wfs)
    (hsa : shouldSkip c a.file = some false)
    (hsb : shouldSkip c b.file = some false)
    (hca : fs a.path = .ok ca) (hcb : fs b.path = .ok cb) :
    (ca = cb →
      a.path ∈ indexGet g.index (md5Hex ca) ∧
      b.path ∈ indexGet g.index (md5Hex ca)) ∧
    (md5Hex ca ≠ md5Hex cb →
      ∀ k, ¬ (a.path ∈ indexGet g.index k ∧ b.path ∈ indexGet g.index k)) := by
  have hchar : ∀ k, indexGet g.index k =
      (wfs.filter (contributes c fs k)).map (fun w => w.path) := by
    intro k
    simpa [initHash, indexGet] using foldScan_indexGet c fs wfs initHash g hrun k
  have hmem : ∀ (w : WalkedFile) (cw : List Nat), w ∈ wfs →
      shouldSkip c w.file = some false → fs w.path = .ok cw →
      w.path ∈ indexGet g.index (md5Hex cw) := by
    intro w cw hw hsw hcw
    rw [hchar]
    refine List.mem_map.mpr ⟨w, List.mem_filter.mpr ⟨hw, ?_⟩, rfl⟩
    simp [contributes, hsw, hcw]
  have honly : ∀ (w : WalkedFile) (cw : List Nat) (k : String), w ∈ wfs →
      fs w.path = .ok cw → w.path ∈ indexGet g.index k → k = md5Hex cw := by
    intro w cw k hw hcw hmemk
    rw [hchar] at hmemk
    obtain ⟨w', hw'f, hw'p⟩ := List.mem_map.mp hmemk
    obtain ⟨hw'm, hw'c⟩ := List.mem_filter.mp hw'f
    have hww' : w' = w := List.inj_on_of_nodup_map hnd hw'm hw hw'p
    subst hww'
    obtain ⟨b', hb', hk⟩ := contributes_key c fs k w' hw'c
    rw [hcw] at hb'
    cases hb'
    exact hk.symm
  constructor
  · intro hcc
    refine ⟨hmem a ca ha hsa hca, ?_⟩
    have : md5Hex ca = md5Hex cb := by rw [hcc]
    rw [this]
    exact hmem b cb hb hsb hcb
  · intro hne k hk
    have h1 := honly a ca k ha hca hk.1
    have h2 := honly b cb k hb hcb hk.2
    exact hne (h1 ▸ h2)

/-- A filesystem where paths `a` and `b` hold identical content. -/
def fsAB : String → FileAccess := fun _ => .ok [104]

/-- The run state after hashing `a` and `b`. -/
def gAB : HashState := (foldScan cStar fsAB [wA, wB] initHash).getD initHash

/-- Witness: two files with equal content end up in the same group. -/
theorem identical_content_lands_in_same_group_witness :
    wA.path ∈ indexGet gAB.index (md5Hex [104]) ∧
    wB.path ∈ indexGet gAB.index (md5Hex [104]) :=
  (identical_content_lands_in_same_group cStar fsAB [wA, wB] gAB wA wB
    [104] [104] rfl (by decide) (by simp) (by simp) rfl rfl rfl rfl).1 rfl

/-! ## Claim C3 -/

/-- C3 (amended): at the end of every fully drained run — every dispatched
file processed before the counters and index are read, which pool size 1
guarantees — the counters satisfy `visited = hashed + skipped + errored`:
`visitCount` counts every walked entry; the successfully fingerprinted
files are exactly the paths stored in the index (`indexSize`); the
open/read failures are exactly the error log records; and
`skipped = visited - dispatched` counts entries filtered out before
dispatch.  Every file passing the filter contributes exactly one of an
index entry or an error record (second conjunct).  Without the drain
proviso the identity fails (see the companion counterexample): in a
truncated multi-worker schedule an in-flight file at collector return is
counted in neither hashed nor errored. -/
theorem run_counter_identity
    (c : Config) (fs : String → FileAccess) (entries : List WalkEntry)
    (ws : WalkState) (g : HashState)
    (hwalk : walkAll c entries initWalk = some ws)
    (hrun : foldScan c fs ws.walkFiles initHash = some g) :
    ws.visitCount = entries.length ∧
    ws.walkFiles.length = indexSize g.index + g.logs.length ∧
    ws.visitCount =
      indexSize g.index + (entries.length - ws.walkFiles.length) +
        g.logs.length := by
  obtain ⟨hv, hw⟩ := walkAll_char c entries initWalk ws hwalk
  have hall : ∀ w ∈ ws.walkFiles, shouldSkip c w.file = some false := by
    intro w hwmem
    rw [hw] at hwmem
    simp only [initWalk, List.nil_append] at hwmem
    exact visitAccepts_shouldSkip c w.file (walkedOf_accepts c entries w hwmem)
  have hc := foldScan_counts c fs ws.walkFiles initHash g hall hrun
  have hlen : ws.walkFiles.length ≤ entries.length := by
    rw [hw]
    simp only [initWalk, List.nil_append, walkedOf]
    exact List.length_filterMap_le _ _
  have h0 : indexSize initHash.index = 0 := rfl
  have hL0 : initHash.logs.length = 0 := rfl
  have hv0 : initWalk.visitCount = 0 := rfl
  rw [h0, hL0] at hc
  rw [hv0] at hv
  refine ⟨by omega, ?_, ?_⟩ <;> omega

/-- A directory entry. -/
def eDir : WalkEntry := { path := "/", info := some ⟨true, 0, "/"⟩, err := none }

/-- A file at exactly the minimum size (filtered out). -/
def eSmall : WalkEntry := { path := "s", info := some ⟨false, 0, "s"⟩, err := none }

/-- A readable candidate file. -/
def eGood : WalkEntry := { path := "a", info := some fiA, err := none }

/-- A candidate file whose open fails. -/
def eBadOpen : WalkEntry := { path := "x", info := some ⟨false, 1, "x"⟩, err := none }

/-- Only `a` is readable; everything else fails to open. -/
def fsMixed : String → FileAccess := fun p => if p = "a" then .ok [104] else .openFail

/-- The walk state over the four-entry tree. -/
def wsMixed : WalkState :=
  (walkAll cStar [eDir, eSmall, eGood, eBadOpen] initWalk).getD initWalk

/-- The hash state after processing the dispatched files of that tree. -/
def gMixed : HashState :=
  (foldScan cStar fsMixed wsMixed.walkFiles initHash).getD initHash

/-- Witness: the counter identity on a tree with a directory, a filtered
file, a hashed file and an open failure. -/
theorem run_counter_identity_witness :
    wsMixed.visitCount =
      indexSize gMixed.index +
        ([eDir, eSmall, eGood, eBadOpen].length - wsMixed.walkFiles.length) +
        gMixed.logs.length :=
  (run_counter_identity cStar fsMixed [eDir, eSmall, eGood, eBadOpen]
    wsMixed gMixed rfl rfl).2.2

/-! ## Claim C5 -/

/-- C5 (amended): when a worker's `scanAndHashFile` fails to open or read a
dispatched file, the failure is logged (one record appended), the file is
excluded from the index (index unchanged), the worker sends a `nil` result
and keeps looping, so the pool continues — but no error counter is
incremented: the returned `workerStats` leaves `errors` untouched
(`processedFiles` and `totalBytes` advance as for a success). -/
theorem worker_failure_is_recoverable
    (c : Config) (fs : String → FileAccess) (w : WalkedFile)
    (g : HashState) (st : WorkerStats)
    (hsk : shouldSkip c w.file = some false)
    (he : fs w.path = .openFail ∨ fs w.path = .readFail) :
    workerHandle c fs (some w) g st =
      some ({ g with fileCount := g.fileCount + 1,
                     logs := g.logs ++
                       [if fs w.path = .openFail then LogEvent.openError w.path
                        else LogEvent.hashError w.path] },
            { st with processedFiles := st.processedFiles + 1,
                      totalBytes := st.totalBytes + w.file.size },
            none) := by
  rcases he with hfs | hfs <;>
    simp [workerHandle, scanAndHashFile, hsk, hfs]

/-- A filesystem where every read fails mid-stream. -/
def fsRead : String → FileAccess := fun _ => .readFail

/-- Witness for the amended C5 theorem at a concrete read failure. -/
theorem worker_failure_is_recoverable_witness :
    workerHandle cStar fsRead (some wA) initHash initStats =
      some ({ initHash with fileCount := initHash.fileCount + 1,
                            logs := initHash.logs ++
                              [if fsRead wA.path = .openFail then
                                 LogEvent.openError wA.path
                               else LogEvent.hashError wA.path] },
            { initStats with processedFiles := initStats.processedFiles + 1,
                             totalBytes := initStats.totalBytes + wA.file.size },
            none) :=
  worker_failure_is_recoverable cStar fsRead wA initHash initStats rfl (Or.inr rfl)

/-- A filesystem where every open fails. -/
def fsFail : String → FileAccess := fun _ => .openFail

/-- C5 counterexample: the claim says such a failure increments an error
counter.  On an open failure the worker's `errors` stat stays `0` — only the
dead `file == nil` branch ever increments it — while the failure is logged
and the file stays out of the index. -/
theorem open_failure_increments_no_error_counter :
    workerHandle cStar fsFail (some wA) initHash initStats =
      some ({ fileCount := 1, index := [], logs := [LogEvent.openError "a"] },
            { processedFiles := 1, totalBytes := 1, errors := 0 },
            none) ∧
    ¬ (0 : Nat) = initStats.errors + 1 :=
  ⟨rfl, by decide⟩

end Duplicates

namespace Duplicates

/-! ## Claim C6 -/

/-- A walk entry whose `lstat` failed: `filepath.Walk` passes a nil
`os.FileInfo` together with the error. -/
def entBad : WalkEntry := { path := "b", info := none, err := some "permission denied" }

/-- C6: the claim states that on a per-entry walk error the code logs the
error, skips the entry and continues.  The code does none of this:
`visitFile` ignores its `err` argument entirely (it is a parameter of
`visitFile` that no branch reads) and immediately calls `f.IsDir()`; when
the walk reports an error it passes a nil `FileInfo`, so the callback
panics (modelled `none`) and the whole walk dies — here the third entry of
the tree is never discovered, and `walkAll` over the prefix shows the walk
was fine until the bad entry. -/
theorem walk_error_entry_panics_and_aborts_walk :
    visitFile cStar initWalk "b" none (some "permission denied") = none ∧
    walkAll cStar [eGood, entBad, eGood] initWalk = none ∧
    walkAll cStar [eGood] initWalk =
      some { visitCount := 1, walkFiles := [wA] } :=
  ⟨rfl, rfl, rfl⟩

/-! ## Claim C7 -/

/-- The error message of Go `regexp.Compile` on a malformed pattern. -/
def compileErrMsg : String := "error parsing regexp" 

/-- A compile function representing `regexp.Compile` on an invalid
pattern: nil matcher plus an error. -/
def compileFail : String → Option (String → Bool) × Option String :=
  fun _ => (none, some compileErrMsg)

/-- The configuration `main` builds from the invalid pattern: the compile
error is discarded by `r, _ := regexp.Compile(...)` and the nil matcher is
stored. -/
def cBadPat : Config :=
  { minSize := 0, filenameMatch := "[x", matchString := setupMatcher compileFail "[x" }

/-- An entry for a nonexistent root: `filepath.Walk` calls the callback
once with a nil `FileInfo` and the `lstat` error. -/
def entNoRoot : WalkEntry :=
  { path := "/nonexistent", info := none, err := some "lstat /nonexistent: no such file or directory" }

/-- C7: the claim states that an invalid pattern or missing root is
reported and the process exits non-zero before any scanning begins.  The
code does not reject them at startup: the `regexp.Compile` error is
discarded (first conjunct) and the walk starts; with a candidate file in
the tree the nil matcher is dereferenced mid-walk and the process panics
(second conjunct) after scanning has already begun — the directory entry
was already visited (third conjunct).  A nonexistent root likewise reaches
`visitFile` with a nil `FileInfo` and panics (fourth conjunct) instead of
being reported as a validation error. -/
theorem setup_errors_not_rejected_before_scanning :
    setupMatcher compileFail "[x" = none ∧
    walkAll cBadPat [eDir, eGood] initWalk = none ∧
    walkAll cBadPat [eDir] initWalk = some { visitCount := 1, walkFiles := [] } ∧
    walkAll cStar [entNoRoot] initWalk = none :=
  ⟨rfl, rfl, rfl, rfl⟩

/-! ## Claim C8 -/

/-- C8: at every point during a run — every reachable pool configuration —
each path occurs at most once in the whole duplicate index: at most once
inside any one fingerprint's list, and never under two distinct
fingerprints.  The hypothesis is that walk paths are distinct, which
`filepath.Walk` guarantees. -/
theorem path_occurs_at_most_once_in_index
    (c : Config) (fs : String → FileAccess) (nF : Nat)
    (wfs : List WalkedFile) (nW : Nat) (s : PoolState) (p : String)
    (hnd : (wfs.map (fun w => w.path)).Nodup)
    (hreach : PoolReach c fs nF (initPool wfs nW initHash) s) :
    (∀ k, (indexGet s.g.index k).count p ≤ 1) ∧
    (∀ k₁ k₂, p ∈ indexGet s.g.index k₁ → p ∈ indexGet s.g.index k₂ →
      k₁ = k₂) := by
  obtain ⟨hperm, hfold⟩ := pool_invariant c fs nF wfs nW initHash s hreach
  have hsub : s.processed.Subperm wfs :=
    (List.Sublist.subperm (List.sublist_append_right (s.jobs ++ s.busyW) s.processed)).trans
      hperm.subperm
  have hchar : ∀ k, indexGet s.g.index k =
      (s.processed.filter (contributes c fs k)).map (fun w => w.path) := by
    intro k
    simpa [initHash, indexGet] using
      foldScan_indexGet c fs s.processed initHash s.g hfold k
  have hndp : (s.processed.map (fun w => w.path)).Nodup :=
    subperm_nodup _ _ (subperm_map _ _ _ hsub) hnd
  constructor
  · intro k
    rw [hchar k]
    have h1 : (((s.processed.filter (contributes c fs k)).map
        (fun w => w.path)).count p) ≤
        ((s.processed.map (fun w => w.path)).count p) :=
      List.Sublist.count_le ((List.filter_sublist _).map _) p
    have h2 : ((s.processed.map (fun w => w.path)).count p) ≤ 1 :=
      List.nodup_iff_count_le_one.mp hndp p
    omega
  · intro k₁ k₂ h₁ h₂
    rw [hchar k₁] at h₁
    rw [hchar k₂] at h₂
    obtain ⟨w₁, hw₁f, hw₁p⟩ := List.mem_map.mp h₁
    obtain ⟨w₂, hw₂f, hw₂p⟩ := List.mem_map.mp h₂
    obtain ⟨hw₁m, hw₁c⟩ := List.mem_filter.mp hw₁f
    obtain ⟨hw₂m, hw₂c⟩ := List.mem_filter.mp hw₂f
    have hww : w₁ = w₂ :=
      List.inj_on_of_nodup_map hndp hw₁m hw₂m (hw₁p.trans hw₂p.symm)
    subst hww
    obtain ⟨b₁, hb₁, hk₁⟩ := contributes_key c fs k₁ w₁ hw₁c
    obtain ⟨b₂, hb₂, hk₂⟩ := contributes_key c fs k₂ w₁ hw₂c
    rw [hb₁] at hb₂
    cases hb₂
    rw [← hk₁, ← hk₂]

/-- Witness for C8 on a concrete reachable state with a hashed file. -/
theorem path_occurs_at_most_once_in_index_witness :
    (indexGet poolD2.g.index hashA).count "a" ≤ 1 :=
  (path_occurs_at_most_once_in_index cStar fsA 1 [wA] 1 poolD2 "a"
    (by decide) reach_poolD2).1 hashA

/-! ## Claim C9 -/

/-- C9: a file whose size equals the configured minimum is filtered out:
`visitFile` only bumps `visitCount` and appends nothing (never dispatched),
and `scanAndHashFile` early-returns leaving the state untouched (never
opened, never hashed, `fileCount` not bumped) — both filters admit only
`size > minSize`. -/
theorem file_at_min_size_is_filtered_out
    (c : Config) (fs : String → FileAccess) (path : String) (fi : FileInfo)
    (err : Option String) (ws : WalkState) (s : HashState)
    (h : fi.size = c.minSize) :
    visitFile c ws path (some fi) err =
      some { ws with visitCount := ws.visitCount + 1 } ∧
    scanAndHashFile c fs path fi s = some s := by
  have hacc : visitAccepts c fi = some false := by
    rw [visitAccepts]
    by_cases hd : fi.isDir
    · simp [hd]
    · have hns : ¬ c.minSize < fi.size := by omega
      simp [hd, hns]
  have hsk : shouldSkip c fi = some true := by
    rw [shouldSkip]
    by_cases hd : fi.isDir
    · simp [hd]
    · have hle : fi.size ≤ c.minSize := by omega
      simp [hd, hle]
  constructor
  · rw [visitFile_some, hacc]
  · rw [scanAndHashFile, hsk]

/-- Witness: a 0-byte file with `minSize = 0` is neither dispatched nor
hashed. -/
theorem file_at_min_size_is_filtered_out_witness :
    visitFile cStar initWalk "m" (some ⟨false, 0, "m"⟩) none =
      some { initWalk with visitCount := initWalk.visitCount + 1 } ∧
    scanAndHashFile cStar fsA "m" ⟨false, 0, "m"⟩ initHash = some initHash :=
  file_at_min_size_is_filtered_out cStar fsA "m" ⟨false, 0, "m"⟩ none
    initWalk initHash rfl

/-! ## Claim C10 -/

/-- C10: filename matching semantics.  (1) With the literal default pattern
`"*"` the matcher is bypassed: the filters' results do not depend on the
stored matcher at all and every non-directory file above the size threshold
is admitted.  (2) With any other pattern the compiled regex matcher is
applied directly to the file name (regex semantics — the matcher is
whatever `regexp.Compile(pattern)` returned, with no glob translation).
(3) A pattern that fails to compile is not rejected at startup:
`r, _ := regexp.Compile(...)` discards the error, and the resulting nil
matcher is used for subsequent name checks, where dereferencing it panics
(modelled `none`). -/
theorem pattern_star_bypass_and_compile_error_discarded
    (min : Int) (m m' : Option (String → Bool)) (f : String → Bool)
    (pat : String) (fi : FileInfo)
    (compile : String → Option (String → Bool) × Option String) (emsg : String)
    (hpat : ¬ pat = "*")
    (hdir : fi.isDir = false) (hsize : min < fi.size)
    (hfail : compile pat = (none, some emsg)) :
    visitAccepts { minSize := min, filenameMatch := "*", matchString := m } fi =
      visitAccepts { minSize := min, filenameMatch := "*", matchString := m' } fi ∧
    visitAccepts { minSize := min, filenameMatch := "*", matchString := m } fi =
      some true ∧
    shouldSkip { minSize := min, filenameMatch := "*", matchString := m } fi =
      some false ∧
    visitAccepts { minSize := min, filenameMatch := pat, matchString := some f } fi =
      some (f fi.name) ∧
    shouldSkip { minSize := min, filenameMatch := pat, matchString := some f } fi =
      some (!f fi.name) ∧
    setupMatcher compile pat = none ∧
    visitAccepts { minSize := min, filenameMatch := pat,
                   matchString := setupMatcher compile pat } fi = none := by
  have hm : setupMatcher compile pat = none := by rw [setupMatcher, hfail]
  have hns : ¬ fi.size ≤ min := not_le.mpr hsize
  refine ⟨?_, ?_, ?_, ?_, ?_, hm, ?_⟩ <;>
    simp [visitAccepts, shouldSkip, hdir, hsize, hns, hpat, hm]

/-- Witness for C10 at the invalid pattern `"[x"` and the candidate file
`a`. -/
theorem pattern_star_bypass_and_compile_error_discarded_witness :
    visitAccepts { minSize := 0, filenameMatch := "[x",
                   matchString := setupMatcher compileFail "[x" } fiA = none :=
  (pattern_star_bypass_and_compile_error_discarded 0 none (some (fun _ => false))
    (fun _ => false) "[x" fiA compileFail compileErrMsg (by decide) rfl
    (by decide) rfl).2.2.2.2.2.2

end Duplicates

namespace Duplicates

/-! ## Claim C3 — counterexample to the unconditioned identity -/

/-- C3 counterexample: the claim asserts `visited = hashed + skipped +
errored` at the end of every run.  In the truncated two-worker schedule of
`reach_poolBad`, the walk visited one entry — the candidate file `a`, so
visited = 1 and skipped = 0 — and the collector loop of `computeHashes`
has consumed its full quota of results (`collected = 1`, the run returns
to `main`, which reads the counters and the map) while `a` is still in
flight (`busyW = [wA]`): the index is empty (hashed = 0) and no error was
logged (errored = 0), so `1 = 0 + 0 + 0` fails and the identity does not
hold at the end of this run. -/
theorem run_counters_fail_without_drain :
    walkAll cStar [eGood] initWalk =
      some { visitCount := 1, walkFiles := [wA] } ∧
    PoolReach cStar fsA 1 poolInit2 poolBad ∧
    poolBad.collected = 1 ∧ poolBad.busyW = [wA] ∧
    ¬ (1 : Nat) =
        indexSize poolBad.g.index +
          (([eGood] : List WalkEntry).length - ([wA] : List WalkedFile).length) +
          poolBad.g.logs.length :=
  ⟨rfl, reach_poolBad, rfl, rfl, by decide⟩

end Duplicates
